import Mathlib

/-!
Verification of the ynab-automation repository's reconciliation and
categorization logic: a shallow embedding of the record parser, the
deduplicator, the fuzzy category resolver, the CSV lookup/matching engine
and the import-id construction, with theorems settling the specification's
claims about them.

Modelling conventions:
  * Python strings are Lean `String`s; `str.strip`, `str.lower`, slicing and
    the substring test are embedded over the character list (ASCII-level
    lowering, which is what the involved data uses).
  * Calendar dates are embedded as day numbers (`ℤ`): every script parses
    dates into one fixed ISO format and only ever compares them for equality
    or shifts them by whole days, operations the day-number embedding carries
    faithfully.
  * Parsed numeric amounts are rationals; Python's float reading of the small
    decimal amounts involved is exact at the scales exercised here.
  * External collaborators (the YNAB SDK, the Anthropic client, json.loads)
    are abstracted as explicit inputs at their call boundary.
-/

namespace YnabAuto

/-! ### Python string primitives -/

/-- The characters Python's default `str.strip` removes (ASCII whitespace). -/
def pyWhitespace : List Char := [' ', '\t', '\n', '\x0d', '\x0b', '\x0c']

def isPyWhitespace (c : Char) : Bool := pyWhitespace.contains c

/-- Python `s.strip()`. -/
def pyStrip (s : String) : String :=
  String.mk (((s.toList.dropWhile isPyWhitespace).reverse.dropWhile isPyWhitespace).reverse)

/-- Python `s.lower()` (ASCII lowering; all lowering in this repository is
applied to ASCII keyword/category text). -/
def pyLower (s : String) : String := String.mk (s.toList.map Char.toLower)

/-- Python slicing from the left: the first n characters. -/
def strTake (n : Nat) (s : String) : String := String.mk (s.toList.take n)

/-- Python substring membership, as in needle in haystack. -/
def containsSub (needle haystack : String) : Bool :=
  go needle.toList haystack.toList
where
  go (n : List Char) : List Char → Bool
    | [] => n.isEmpty
    | c :: rest => n.isPrefixOf (c :: rest) || go n rest

/-- The test `unicodedata.category(c) == "So"` (Unicode Symbol-other),
embedded on the symbol/emoji blocks that occur in this repository's category
names and AI responses (miscellaneous symbols and the emoji planes, all of
whose code points carry general category So). -/
def isSymbolOther (c : Char) : Bool :=
  let n := c.toNat
  (0x2600 ≤ n && n ≤ 0x26FF) ||
  (0x1F300 ≤ n && n ≤ 0x1F5FF) ||
  (0x1F600 ≤ n && n ≤ 0x1F64F) ||
  (0x1F680 ≤ n && n ≤ 0x1F6FF) ||
  (0x1F900 ≤ n && n ≤ 0x1F9FF) ||
  (0x1FA70 ≤ n && n ≤ 0x1FAFF)

/-! ### Fuzzy category resolution (_resolve_category, amazon_csv_to_ynab.py
lines 108-123 and ynab_apply_csv_categories.py lines 68-79; the two copies
compute the same function) -/

def DEFAULT_CATEGORY : String := "Uncategorized"

/-- The inner normalize: drop Symbol-other characters, strip, lower. -/
def normalize (s : String) : String :=
  pyLower (pyStrip (String.mk (s.toList.filter (fun c => !isSymbolOther c))))

/-- One loop iteration's test: the body of the for-loop accepts cat when its
normalization equals the normalized response or one is a substring of the
other. -/
def fuzzy_match (aiN : String) (cat : String) : Bool :=
  normalize cat == aiN || containsSub aiN (normalize cat) || containsSub (normalize cat) aiN

/-- `_resolve_category`: strip the response, accept exact membership, else
scan the vocabulary once and return the first entry the loop body accepts,
else the sentinel. -/
def resolve_category (ai_response : String) (valid : List String) : String :=
  let ai := pyStrip ai_response
  if ai ∈ valid then ai
  else
    match valid.find? (fuzzy_match (normalize ai)) with
    | some cat => cat
    | none => DEFAULT_CATEGORY

/-- Modelled from the spec: the staged resolution procedure as the claim
states it, in which the normalized-equality stage is exhausted over the whole
vocabulary before any substring comparison is attempted.  Written for
comparison with `resolve_category`, which is the code's actual procedure. -/
def resolve_category_staged (ai_response : String) (valid : List String) : String :=
  let ai := pyStrip ai_response
  if ai ∈ valid then ai
  else
    let aiN := normalize ai
    match valid.find? (fun cat => normalize cat == aiN) with
    | some cat => cat
    | none =>
      match valid.find? (fun cat =>
          containsSub aiN (normalize cat) || containsSub (normalize cat) aiN) with
      | some cat => cat
      | none => DEFAULT_CATEGORY

/-! ### Record parser sign convention and row construction
(amazon_csv_to_ynab.py, main loop lines 249-280) -/

def refund_keywords : List String := ["return", "refund", "reimbursement"]

/-- `any(x in memo_str.lower() for x in ["return", "refund", "reimbursement"])`. -/
def memo_indicates_refund (memo : String) : Bool :=
  refund_keywords.any (fun k => containsSub k (pyLower memo))

/-- Lines 256-263: keep a strictly positive amount when the memo indicates a
refund; otherwise negate the absolute value, with an explicit zero case. -/
def sign_adjust (amount_val : ℚ) (memo : String) : ℚ :=
  if 0 < amount_val ∧ memo_indicates_refund memo = true then amount_val
  else if amount_val ≠ 0 then -|amount_val| else 0

/-- One row of the normalizer's Output CSV. -/
structure OutRow where
  date : String
  payee : String
  memo : String
  amount : ℚ
  category : String
  orderId : String
deriving DecidableEq

/-- One iteration of the normalizer's row loop (lines 249-280), with the
raw-cell parsing stage explicit as inputs: `date_str` and `amount_val` are
the results of `_parse_date` / `_parse_amount` on the raw cells (`none` when
unparseable, which makes the loop skip the row), and `order_id` the
synthesized order id of lines 265-271. -/
def make_row (date_str : Option String) (amount_val : Option ℚ)
    (memo_raw : String) (order_id : String) : Option OutRow :=
  match date_str, amount_val with
  | some d, some a =>
    let memo := strTake 500 (pyStrip memo_raw)
    some { date := d, payee := "Amazon.ca",
           memo := if memo = "" then "Order " ++ d else memo,
           amount := sign_adjust a memo,
           category := "", orderId := order_id }
  | _, _ => none

/-! ### Deduplication (amazon_csv_to_ynab.py lines 282-289) -/

/-- The dedup key: (date, amount, memo truncated to 100 characters). -/
def dedup_key (r : OutRow) : String × ℚ × String := (r.date, r.amount, strTake 100 r.memo)

/-- The loop over rows_out with its `seen` set (membership is all the set is
used for, so a list of keys carries it). -/
def dedup_aux (seen : List (String × ℚ × String)) : List OutRow → List OutRow
  | [] => []
  | r :: rs =>
    if dedup_key r ∈ seen then dedup_aux seen rs
    else r :: dedup_aux (dedup_key r :: seen) rs

def dedup (rows : List OutRow) : List OutRow := dedup_aux [] rows

/-! ### Milliunit conversion (Python round is half-to-even) -/

/-- Round the rational n / d (any d > 0; the computation is scale-invariant)
to an integer, half to even — Python's `round`.  f is the floor, r the
remainder, and 2r compared with d decides below / above / exactly half. -/
def round_half_even (n d : ℤ) : ℤ :=
  let f := Int.fdiv n d
  let r := n - f * d
  if 2 * r < d then f
  else if d < 2 * r then f + 1
  else if f % 2 = 0 then f else f + 1

/-- Python's `round(q)` for a rational. -/
def pyRound (q : ℚ) : ℤ := round_half_even q.num q.den

/-! ### CSV category lookup (ynab_apply_csv_categories.py lines 33-65) -/

/-- One CSV row as load_csv_lookup reads it, with the two cell parses made
explicit: `date` is the strptime result as a day number (`none` when the cell
is blank or raises ValueError, skipping the row), `amount` the float parse of
the Amount cell (`none` on ValueError; a blank cell parses as 0), and
`category` the raw Category cell. -/
structure CsvRow where
  date : Option ℤ
  amount : Option ℚ
  category : String

/-- Lines 53-56: `int(round(amt * 1000))`, then force nonpositive.  The
product amt * 1000 is the rational (amt.num * 1000) / amt.den, rounded by the
scale-invariant `round_half_even`. -/
def milliunits_of (amt : ℚ) : ℤ :=
  let m := round_half_even (amt.num * 1000) amt.den
  if 0 < m then -m else m

abbrev Lookup := List ((ℤ × ℤ) × String)
abbrev ByAmount := List (ℤ × (ℤ × String))

/-- Python dict assignment `lookup[key] = cat`: overwrite an existing key,
else append. -/
def dict_set (l : Lookup) (k : ℤ × ℤ) (v : String) : Lookup :=
  if l.any (fun p => p.1 = k) then l.map (fun p => if p.1 = k then (k, v) else p)
  else l ++ [(k, v)]

/-- Python `lookup.get(key)`. -/
def dict_get (l : Lookup) (k : ℤ × ℤ) : Option String :=
  (l.find? (fun p => decide (p.1 = k))).map Prod.snd

/-- Python `by_amount[amt]`, with the insertion order of appends kept. -/
def by_amount_get (ba : ByAmount) (amt : ℤ) : List (ℤ × String) :=
  (ba.filter (fun p => decide (p.1 = amt))).map Prod.snd

/-- One row of load_csv_lookup's loop: skip rows with an unparseable date or
amount and rows whose category is blank or the sentinel; otherwise record the
(date, milliunits) -> category entry and append to the amount index. -/
def load_step (acc : Lookup × ByAmount) (row : CsvRow) : Lookup × ByAmount :=
  match row.date, row.amount with
  | some d, some a =>
    let cat := pyStrip row.category
    if cat = "" ∨ pyLower cat = "uncategorized" then acc
    else
      let m := milliunits_of a
      (dict_set acc.1 (d, m) cat, acc.2 ++ [(m, (d, cat))])
  | _, _ => acc

/-- `load_csv_lookup`: build the (date, milliunits) -> category dict and the
milliunits -> [(date, category)] fallback index. -/
def load_csv_lookup (rows : List CsvRow) : Lookup × ByAmount :=
  rows.foldl load_step ([], [])

/-! ### Matching an uncategorized ledger transaction
(ynab_apply_csv_categories.py lines 206-226) -/

/-- Python falsiness of the running `new_cat` value (`None` or empty). -/
def opt_falsy : Option String → Bool
  | none => true
  | some s => s == ""

/-- The fixed offset search order of line 213. -/
def tolerance_deltas : List ℤ := [-2, -1, 1, 2]

def first_present : List (Option String) → Option String
  | [] => none
  | o :: rest =>
    match o with
    | some s => some s
    | none => first_present rest

/-- Lines 209-219: retry the exact lookup at the shifted dates in order and
take the first present entry. -/
def tolerance_step (lk : Lookup) (d amt : ℤ) : Option String :=
  first_present (tolerance_deltas.map (fun dl => dict_get lk (d + dl, amt)))

/-- Lines 206-226: exact lookup, then the date-tolerance retry, then the
amount-only fallback guarded on exactly one candidate; a transaction whose
running category is still falsy is recorded as unmatched (`none`). -/
def match_category (lk : Lookup) (ba : ByAmount) (d amt : ℤ) : Option String :=
  let c1 := dict_get lk (d, amt)
  let c2 :=
    if opt_falsy c1 then
      match tolerance_step lk d amt with
      | some c => some c
      | none => c1
    else c1
  let c3 :=
    if opt_falsy c2 then
      match by_amount_get ba amt with
      | [e] => some e.2
      | _ => c2
    else c2
  if opt_falsy c3 then none else c3

/-! ### AI batch classification (categorize_with_ai,
amazon_csv_to_ynab.py lines 126-203) -/

/-- The dict comprehension for the default mapping: every index of the batch
mapped to the sentinel. -/
def default_map (n : Nat) : List (Nat × String) :=
  (List.range n).map (fun i => (i, DEFAULT_CATEGORY))

/-- `categorize_with_ai`, with its external collaborators abstracted at the
call boundary: `api_key` is the environment lookup; `response` the outcome of
the model request (`none` = the request raised); `decode` the
fence-stripping, `json.loads` and int-coercion tail applied to the response
body (`none` = any exception there, caught by the same bare `except` as a
request failure).  Every failure path returns the full default mapping. -/
def categorize_with_ai (decode : String → Option (List (Nat × String)))
    (api_key : Option String) (response : Option String) (numItems : Nat) :
    List (Nat × String) :=
  match api_key with
  | none => default_map numItems
  | some _ =>
    match response with
    | none => default_map numItems
    | some text =>
      match decode text with
      | none => default_map numItems
      | some m => m

/-! ### Remote pagination (ynab_import.py lines 114-155,
ynab_apply_csv_categories.py lines 154-186, ynab_cleanup_amazon.py lines
143-183).  A page is the list of its transactions' parsed dates (`none` for
a transaction whose date field is missing or unparseable, which the latest
computation skips). -/

inductive PageStep where
  | stop : PageStep
  | next : ℤ → PageStep
deriving DecidableEq

/-- One transaction of the latest-date scan: keep the running maximum over
the dates that parsed. -/
def latest_step (acc : Option ℤ) (d : Option ℤ) : Option ℤ :=
  match d with
  | none => acc
  | some x =>
    match acc with
    | none => some x
    | some l => if l < x then some x else some l

/-- The latest-date scan of a page. -/
def latest_date (ds : List (Option ℤ)) : Option ℤ :=
  ds.foldl latest_step none

/-- One iteration's outcome for the two uncapped loops (ynab_import and
ynab_apply_csv_categories): break on a short or empty page or when no date
parsed, else continue from the latest date plus one day. -/
def page_step (dates : List (Option ℤ)) : PageStep :=
  if dates.length < 500 ∨ dates = [] then PageStep.stop
  else
    match latest_date dates with
    | none => PageStep.stop
    | some l => PageStep.next (l + 1)

/-- One iteration's outcome for the cleanup loop, which additionally breaks
once the latest fetched date reaches END_DATE (the cutoff). -/
def page_step_cutoff (cutoff : ℤ) (dates : List (Option ℤ)) : PageStep :=
  if dates.length < 500 ∨ dates = [] then PageStep.stop
  else
    match latest_date dates with
    | none => PageStep.stop
    | some l => if cutoff ≤ l then PageStep.stop else PageStep.next (l + 1)

/-! ### Importer row filter and transaction groups (ynab_import.py lines
87-96 and 178-233) -/

/-- Lines 87-94: milliunits of a parsed CSV amount, forced nonpositive. -/
def import_row_amount (raw : ℚ) : ℤ :=
  let a := round_half_even (raw.num * 1000) raw.den
  if 0 < a then -a else a

/-- Lines 87-96: the importer's per-row amount filter; `none` when the row is
skipped because its milliunit amount is zero. -/
def import_row_keep (raw : ℚ) : Option ℤ :=
  let a := import_row_amount raw
  if a = 0 then none else some a

/-- A transaction built for import, as far as the claims inspect it. -/
structure NewTx where
  date : ℤ
  amount : ℤ
  import_id : String
  is_split : Bool
deriving DecidableEq

/-- `cat_amounts[cat_id] += amt` on a defaultdict, insertion order kept. -/
def add_cat (acc : List (Option String × ℤ)) (cid : Option String) (amt : ℤ) :
    List (Option String × ℤ) :=
  if acc.any (fun p => p.1 = cid) then
    acc.map (fun p => if p.1 = cid then (p.1, p.2 + amt) else p)
  else acc ++ [(cid, amt)]

/-- Lines 191-196: aggregate a group's amounts by resolved category id.  A
group row is (date, milliunit amount, category id as category_for_row
resolved it). -/
def cat_amounts (rows : List (ℤ × ℤ × Option String)) : List (Option String × ℤ) :=
  rows.foldl (fun acc r => add_cat acc r.2.2 r.2.1) []

def group_total (rows : List (ℤ × ℤ × Option String)) : ℤ :=
  (rows.map (fun r => r.2.1)).sum

/-- The isoformat rendering of a day-number date: any injective rendering
carries the claims about import-id equality; `toString` is injective on ℤ. -/
def iso_of_day (d : ℤ) : String := toString d

def import_id_string (total : ℤ) (d : ℤ) : String :=
  "YNAB:" ++ toString total ++ ":" ++ iso_of_day d ++ ":1"

/-- Lines 178-233: build the NewTransaction for one group (the duplicate
check against the remote ledger, which only skips groups, is outside this
function).  A zero-total group is skipped; one aggregated category gives a
single transaction, several give a split one; both use the same import id
format with the constant trailing sequence component 1. -/
def build_group_tx (rows : List (ℤ × ℤ × Option String)) : Option NewTx :=
  match rows with
  | [] => none
  | r0 :: _ =>
    let d0 := r0.1
    let total := group_total rows
    if total = 0 then none
    else
      match (cat_amounts rows).length with
      | 0 => none
      | 1 => some { date := d0, amount := total,
                    import_id := import_id_string total d0, is_split := false }
      | _ + 2 => some { date := d0, amount := total,
                        import_id := import_id_string total d0, is_split := true }

/-! ### Helper lemmas -/

theorem find?_append_first {α : Type} (p : α → Bool) (c : α) :
    ∀ (l1 l2 : List α), (∀ x ∈ l1, p x = false) → p c = true →
      (l1 ++ c :: l2).find? p = some c := by
  intro l1
  induction l1 with
  | nil =>
    intro l2 _ hc
    simpa using List.find?_cons_of_pos _ hc
  | cons a t ih =>
    intro l2 hall hc
    have ha : p a = false := hall a (by simp)
    simp only [List.cons_append]
    rw [List.find?_cons_of_neg _ (by simp [ha])]
    exact ih l2 (fun x hx => hall x (by simp [hx])) hc

theorem find?_none_of_all {α : Type} (p : α → Bool) :
    ∀ l : List α, (∀ x ∈ l, p x = false) → l.find? p = none := by
  intro l
  induction l with
  | nil => intro _; rfl
  | cons a t ih =>
    intro hall
    rw [List.find?_cons_of_neg _ (by simp [hall a (by simp)])]
    exact ih (fun x hx => hall x (by simp [hx]))

theorem first_present_map_none {β : Type} (f : β → Option String) :
    ∀ l : List β, (∀ x ∈ l, f x = none) → first_present (l.map f) = none := by
  intro l
  induction l with
  | nil => intro _; rfl
  | cons a t ih =>
    intro hall
    simp only [List.map_cons, first_present, hall a (by simp)]
    exact ih (fun x hx => hall x (by simp [hx]))

theorem first_present_map_first {β : Type} (f : β → Option String) (c : String) :
    ∀ (l1 : List β) (x : β) (l2 : List β),
      (∀ y ∈ l1, f y = none) → f x = some c →
      first_present ((l1 ++ x :: l2).map f) = some c := by
  intro l1
  induction l1 with
  | nil =>
    intro x l2 _ hx
    simp [first_present, hx]
  | cons a t ih =>
    intro x l2 hall hx
    simp only [List.cons_append, List.map_cons, first_present, hall a (by simp)]
    exact ih x l2 (fun y hy => hall y (by simp [hy])) hx

theorem dict_get_some_mem (lk : Lookup) (k : ℤ × ℤ) (v : String)
    (h : dict_get lk k = some v) : ∃ p ∈ lk, p.1 = k ∧ p.2 = v := by
  unfold dict_get at h
  rcases hf : lk.find? (fun p => decide (p.1 = k)) with _ | p
  · rw [hf] at h; simp at h
  · rw [hf] at h
    refine ⟨p, List.mem_of_find?_eq_some hf, ?_, ?_⟩
    · have hp := List.find?_some hf
      exact of_decide_eq_true hp
    · simpa using h

theorem dedup_aux_congr :
    ∀ (l : List OutRow) (s1 s2 : List (String × ℚ × String)),
      (∀ k, k ∈ s1 ↔ k ∈ s2) → dedup_aux s1 l = dedup_aux s2 l := by
  intro l
  induction l with
  | nil => intro _ _ _; rfl
  | cons r rs ih =>
    intro s1 s2 hs
    by_cases hk : dedup_key r ∈ s1
    · rw [dedup_aux, dedup_aux, if_pos hk, if_pos ((hs _).1 hk)]
      exact ih s1 s2 hs
    · rw [dedup_aux, dedup_aux, if_neg hk, if_neg (fun h => hk ((hs _).2 h))]
      exact congrArg (r :: ·)
        (ih (dedup_key r :: s1) (dedup_key r :: s2) (fun k => by simp [hs k]))

theorem dedup_aux_cons_key :
    ∀ (l : List OutRow) (seen : List (String × ℚ × String)) (k : String × ℚ × String),
      dedup_aux (k :: seen) l =
        dedup_aux seen (l.filter (fun x => !decide (dedup_key x = k))) := by
  intro l
  induction l with
  | nil => intro _ _; rfl
  | cons r rs ih =>
    intro seen k
    by_cases hk : dedup_key r = k
    · rw [dedup_aux, if_pos (by simp [hk]), List.filter_cons_of_neg (by simp [hk])]
      exact ih seen k
    · by_cases hs : dedup_key r ∈ seen
      · rw [dedup_aux, if_pos (by simp [hs]), List.filter_cons_of_pos (by simp [hk]),
          dedup_aux, if_pos hs]
        exact ih seen k
      · rw [dedup_aux, if_neg (by simp [hk, hs]), List.filter_cons_of_pos (by simp [hk]),
          dedup_aux, if_neg hs]
        refine congrArg (r :: ·) ?_
        rw [dedup_aux_congr rs (dedup_key r :: k :: seen) (k :: dedup_key r :: seen)
          (fun x => by simp; tauto)]
        exact ih (dedup_key r :: seen) k

theorem dedup_aux_idem :
    ∀ (l : List OutRow) (seen : List (String × ℚ × String)),
      dedup_aux seen (dedup_aux seen l) = dedup_aux seen l := by
  intro l
  induction l with
  | nil => intro _; rfl
  | cons r rs ih =>
    intro seen
    by_cases hk : dedup_key r ∈ seen
    · rw [dedup_aux, if_pos hk]
      exact ih seen
    · rw [dedup_aux, if_neg hk, dedup_aux, if_neg hk]
      exact congrArg (r :: ·) (ih (dedup_key r :: seen))

theorem milliunits_of_nonpos (a : ℚ) : milliunits_of a ≤ 0 := by
  unfold milliunits_of
  set m := round_half_even (a.num * 1000) a.den with hm
  by_cases h : 0 < m
  · rw [if_pos h]; omega
  · rw [if_neg h]; omega

theorem load_step_nonpos (acc : Lookup × ByAmount) (row : CsvRow)
    (h1 : ∀ e ∈ acc.1, e.1.2 ≤ 0) (h2 : ∀ e ∈ acc.2, e.1 ≤ 0) :
    (∀ e ∈ (load_step acc row).1, e.1.2 ≤ 0) ∧
    (∀ e ∈ (load_step acc row).2, e.1 ≤ 0) := by
  obtain ⟨rd, ra, rc⟩ := row
  rcases rd with _ | d
  · exact ⟨h1, h2⟩
  rcases ra with _ | a
  · exact ⟨h1, h2⟩
  simp only [load_step]
  by_cases hc : pyStrip rc = "" ∨ pyLower (pyStrip rc) = "uncategorized"
  · rw [if_pos hc]; exact ⟨h1, h2⟩
  · rw [if_neg hc]
    constructor
    · intro e he
      unfold dict_set at he
      by_cases hany : acc.1.any (fun p => p.1 = (d, milliunits_of a))
      · rw [if_pos hany] at he
        rcases List.mem_map.1 he with ⟨p, hp, hpe⟩
        by_cases hpk : p.1 = (d, milliunits_of a)
        · rw [if_pos hpk] at hpe
          rw [← hpe]
          exact milliunits_of_nonpos a
        · rw [if_neg hpk] at hpe
          rw [← hpe]
          exact h1 p hp
      · rw [if_neg hany] at he
        rcases List.mem_append.1 he with hold | hnew
        · exact h1 e hold
        · simp only [List.mem_singleton] at hnew
          rw [hnew]
          exact milliunits_of_nonpos a
    · intro e he
      rcases List.mem_append.1 he with hold | hnew
      · exact h2 e hold
      · simp only [List.mem_singleton] at hnew
        rw [hnew]
        exact milliunits_of_nonpos a

theorem load_foldl_nonpos :
    ∀ (rows : List CsvRow) (acc : Lookup × ByAmount),
      (∀ e ∈ acc.1, e.1.2 ≤ 0) → (∀ e ∈ acc.2, e.1 ≤ 0) →
      (∀ e ∈ (rows.foldl load_step acc).1, e.1.2 ≤ 0) ∧
      (∀ e ∈ (rows.foldl load_step acc).2, e.1 ≤ 0) := by
  intro rows
  induction rows with
  | nil => intro acc h1 h2; exact ⟨h1, h2⟩
  | cons row rest ih =>
    intro acc h1 h2
    have hstep := load_step_nonpos acc row h1 h2
    exact ih (load_step acc row) hstep.1 hstep.2

theorem latest_foldl_mem :
    ∀ (ds : List (Option ℤ)) (acc : Option ℤ) (l : ℤ),
      ds.foldl latest_step acc = some l → some l ∈ ds ∨ acc = some l := by
  intro ds
  induction ds with
  | nil => intro acc l h; exact Or.inr h
  | cons d rest ih =>
    intro acc l h
    rcases ih (latest_step acc d) l h with hmem | hstep
    · exact Or.inl (List.mem_cons_of_mem d hmem)
    · rcases d with _ | x
      · exact Or.inr hstep
      · rcases acc with _ | m
        · have hx : some x = some l := hstep
          exact Or.inl (by rw [← hx]; exact List.mem_cons_self _ _)
        · have hx : (if m < x then some x else some m) = some l := hstep
          by_cases hlt : m < x
          · rw [if_pos hlt] at hx
            exact Or.inl (by rw [← hx]; exact List.mem_cons_self _ _)
          · rw [if_neg hlt] at hx
            exact Or.inr hx

theorem lookup_map_const (c : String) :
    ∀ (l : List Nat) (i : Nat), i ∈ l → (l.map (fun j => (j, c))).lookup i = some c := by
  intro l
  induction l with
  | nil => intro i hi; simp at hi
  | cons a t ih =>
    intro i hi
    by_cases hia : i = a
    · simp [List.lookup, hia]
    · have : i ∈ t := by
        rcases List.mem_cons.1 hi with h | h
        · exact absurd h hia
        · exact h
      have hb : (i == a) = false := beq_eq_false_iff_ne.mpr hia
      simp only [List.map_cons, List.lookup, hb]
      exact ih i this

/-! ### Claim theorems -/

/-- C1 counterexample: the resolver does not give the normalized-equality
stage priority over the substring stage across the whole vocabulary.  For the
response "Abc" against the vocabulary ["ab", "abc"], the staged procedure the
claim describes returns "abc" (a normalized exact match), but the code scans
entry by entry and accepts "ab" first through the substring test. -/
theorem resolve_category_staged_divergence :
    resolve_category "Abc" ["ab", "abc"] = "ab" ∧
    resolve_category_staged "Abc" ["ab", "abc"] = "abc" ∧
    resolve_category "Abc" ["ab", "abc"] ≠ resolve_category_staged "Abc" ["ab", "abc"] := by
  refine ⟨by decide, by decide, by decide⟩

/-- C1 (amended): the resolver accepts the stripped response verbatim when it
is an element of the vocabulary; otherwise it scans the vocabulary once in
order and returns the first entry whose normalization equals the normalized
response OR is substring-related to it (the two stages are interleaved per
entry, not staged across the vocabulary); otherwise the sentinel.  The
claim's concrete examples hold. -/
theorem resolve_category_first_match :
    (∀ ai valid, pyStrip ai ∈ valid → resolve_category ai valid = pyStrip ai) ∧
    (∀ ai v1 cat v2,
        pyStrip ai ∉ v1 ++ cat :: v2 →
        (∀ c ∈ v1, fuzzy_match (normalize (pyStrip ai)) c = false) →
        fuzzy_match (normalize (pyStrip ai)) cat = true →
        resolve_category ai (v1 ++ cat :: v2) = cat) ∧
    (∀ ai valid,
        pyStrip ai ∉ valid →
        (∀ c ∈ valid, fuzzy_match (normalize (pyStrip ai)) c = false) →
        resolve_category ai valid = DEFAULT_CATEGORY) ∧
    resolve_category "Kids Supplies 👶" ["Kids Supplies", "Wardrobe"] = "Kids Supplies" ∧
    resolve_category "totally unknown" ["Kids Supplies", "Wardrobe"] = DEFAULT_CATEGORY := by
  refine ⟨?_, ?_, ?_, by decide, by decide⟩
  · intro ai valid hmem
    simp only [resolve_category, if_pos hmem]
  · intro ai v1 cat v2 hmem hbefore hcat
    simp only [resolve_category, if_neg hmem]
    rw [find?_append_first _ cat v1 v2 hbefore hcat]
  · intro ai valid hmem hall
    simp only [resolve_category, if_neg hmem]
    rw [find?_none_of_all _ valid hall]

/-- C2: the record parser's sign convention — the output amount equals the
parsed value exactly in the strictly-positive refund-memo case, and the
negated absolute value in every other case (a parsed zero maps to zero,
which the single -abs form already expresses); with the claim's two
concrete examples. -/
theorem sign_convention :
    (∀ (a : ℚ) (m : String),
        sign_adjust a m =
          if 0 < a ∧ memo_indicates_refund m = true then a else -|a|) ∧
    sign_adjust (Rat.divInt 1234 100) "refund issued" = Rat.divInt 1234 100 ∧
    sign_adjust (Rat.divInt 1234 100) "wireless mouse" = -(Rat.divInt 1234 100) := by
  refine ⟨?_, by decide, by decide⟩
  intro a m
  unfold sign_adjust
  by_cases h : 0 < a ∧ memo_indicates_refund m = true
  · rw [if_pos h, if_pos h]
  · rw [if_neg h, if_neg h]
    by_cases hz : a ≠ 0
    · rw [if_pos hz]
    · rw [if_neg hz]
      push_neg at hz
      rw [hz]
      simp

/-- C3 counterexample: a row whose amount parses to exactly 0 (with a valid
date) is NOT excluded by the normalizer — make_row emits it with amount 0,
and deduplication keeps it, so it appears in the Output CSV. -/
theorem zero_amount_row_in_output :
    make_row (some "2025-01-01") (some 0) "usb cable" "" =
      some ⟨"2025-01-01", "Amazon.ca", "usb cable", 0, "", ""⟩ ∧
    dedup [⟨"2025-01-01", "Amazon.ca", "usb cable", 0, "", ""⟩] =
      [⟨"2025-01-01", "Amazon.ca", "usb cable", 0, "", ""⟩] := by
  refine ⟨by decide, by decide⟩

/-- C3 (amended): zero-amount rows survive the normalizer and appear in the
Output CSV with amount 0, but the importer excludes them: its row filter
never keeps a zero milliunit amount, a row rounding to zero milliunits is
skipped, and no constructed transaction group has total amount 0. -/
theorem zero_amount_excluded_from_import :
    (∀ (raw : ℚ) (a : ℤ), import_row_keep raw = some a → a ≠ 0) ∧
    (∀ raw : ℚ, import_row_amount raw = 0 → import_row_keep raw = none) ∧
    (∀ g t, build_group_tx g = some t → t.amount ≠ 0) := by
  refine ⟨?_, ?_, ?_⟩
  · intro raw a h
    unfold import_row_keep at h
    by_cases hz : import_row_amount raw = 0
    · rw [if_pos hz] at h
      exact absurd h (by simp)
    · rw [if_neg hz] at h
      intro ha
      apply hz
      have : import_row_amount raw = a := by simpa using h
      rw [this, ha]
  · intro raw h
    unfold import_row_keep
    rw [if_pos h]
  · intro g t h
    rcases g with _ | ⟨r0, rest⟩
    · exact absurd h (by simp [build_group_tx])
    · simp only [build_group_tx] at h
      by_cases hz : group_total (r0 :: rest) = 0
      · rw [if_pos hz] at h
        exact absurd h (by simp)
      · rw [if_neg hz] at h
        rcases hn : (cat_amounts (r0 :: rest)).length with _ | _ | k
        all_goals rw [hn] at h
        · exact absurd h (by simp)
        · have ht : t = ⟨r0.1, group_total (r0 :: rest),
              import_id_string (group_total (r0 :: rest)) r0.1, false⟩ := by
            have := h
            simpa using this.symm
          rw [ht]
          exact hz
        · have ht : t = ⟨r0.1, group_total (r0 :: rest),
              import_id_string (group_total (r0 :: rest)) r0.1, true⟩ := by
            have := h
            simpa using this.symm
          rw [ht]
          exact hz

/-- C4: when the exact lookup and every date-tolerance retry miss, the
amount-only fallback assigns a category only when the secondary index holds
exactly one entry for the transaction's amount; with any other number of
contributed entries (in particular two or more) the transaction stays
unmatched. -/
theorem amount_fallback_requires_unique (rows : List CsvRow) (d amt : ℤ)
    (hexact : dict_get (load_csv_lookup rows).1 (d, amt) = none)
    (htol : ∀ dl ∈ tolerance_deltas, dict_get (load_csv_lookup rows).1 (d + dl, amt) = none)
    (hambig : (by_amount_get (load_csv_lookup rows).2 amt).length ≠ 1) :
    match_category (load_csv_lookup rows).1 (load_csv_lookup rows).2 d amt = none := by
  have htolstep : tolerance_step (load_csv_lookup rows).1 d amt = none :=
    first_present_map_none _ tolerance_deltas htol
  unfold match_category
  rw [hexact, htolstep]
  rcases hba : by_amount_get (load_csv_lookup rows).2 amt with _ | ⟨e, _ | ⟨e2, tail⟩⟩
  · rfl
  · exact absurd (by rw [hba]; rfl) hambig
  · rfl

/-- C4 witness: two CSV rows both of amount -1.999 (milliunits -1999) with
different categories; a transaction of amount -1999 dated between them, with
no exact or tolerance hit, stays unmatched. -/
theorem amount_fallback_requires_unique_witness :
    match_category
        (load_csv_lookup [⟨some 0, some (Rat.divInt (-1999) 1000), "A"⟩,
          ⟨some 100, some (Rat.divInt (-1999) 1000), "B"⟩]).1
        (load_csv_lookup [⟨some 0, some (Rat.divInt (-1999) 1000), "A"⟩,
          ⟨some 100, some (Rat.divInt (-1999) 1000), "B"⟩]).2
        50 (-1999) = none :=
  amount_fallback_requires_unique
    [⟨some 0, some (Rat.divInt (-1999) 1000), "A"⟩,
      ⟨some 100, some (Rat.divInt (-1999) 1000), "B"⟩]
    50 (-1999) (by decide) (by decide) (by decide)

/-- C5: the matcher tries the exact (date, amount) lookup first and returns
its hit; on a miss it retries at the fixed offsets -2, -1, 1, 2 in order and
accepts the first present entry; the tolerance step never matches an entry
whose date differs from the transaction's by more than 2 days.  The claim's
concrete instance: a CSV entry at day 10 with amount -4500 matches a
transaction at day 12, and the tolerance step finds nothing for a
transaction at day 15. -/
theorem date_tolerance_matching :
    (∀ (lk : Lookup) (ba : ByAmount) (d amt : ℤ),
        opt_falsy (dict_get lk (d, amt)) = false →
        match_category lk ba d amt = dict_get lk (d, amt)) ∧
    (∀ (lk : Lookup) (ba : ByAmount) (d amt : ℤ) (c : String) (dl1 : List ℤ) (dl : ℤ)
        (dl2 : List ℤ),
        tolerance_deltas = dl1 ++ dl :: dl2 →
        opt_falsy (dict_get lk (d, amt)) = true →
        (∀ y ∈ dl1, dict_get lk (d + y, amt) = none) →
        dict_get lk (d + dl, amt) = some c → c ≠ "" →
        match_category lk ba d amt = some c) ∧
    (∀ (lk : Lookup) (d amt : ℤ),
        (∀ e ∈ lk, e.1.2 = amt → 2 < |e.1.1 - d|) →
        tolerance_step lk d amt = none) ∧
    match_category (load_csv_lookup [⟨some 10, some (Rat.divInt (-45) 10), "X"⟩]).1
      (load_csv_lookup [⟨some 10, some (Rat.divInt (-45) 10), "X"⟩]).2
      12 (-4500) = some "X" ∧
    tolerance_step (load_csv_lookup [⟨some 10, some (Rat.divInt (-45) 10), "X"⟩]).1
      15 (-4500) = none := by
  refine ⟨?_, ?_, ?_, by decide, by decide⟩
  · intro lk ba d amt hfalse
    simp [match_category, hfalse]
  · intro lk ba d amt c dl1 dl dl2 hsplit hfalsy hbefore hdl hc
    have hstep : tolerance_step lk d amt = some c := by
      unfold tolerance_step
      rw [hsplit]
      exact first_present_map_first _ c dl1 dl dl2 hbefore hdl
    have hcfalse : opt_falsy (some c) = false := by
      simp [opt_falsy, hc]
    simp [match_category, hfalsy, hstep, hcfalse]
  · intro lk d amt hfar
    apply first_present_map_none
    intro dl hdl
    rcases hget : dict_get lk (d + dl, amt) with _ | c
    · rfl
    · exfalso
      rcases dict_get_some_mem lk (d + dl, amt) c hget with ⟨p, hp, hpk, _⟩
      have h2 := hfar p hp (by rw [hpk])
      rw [hpk] at h2
      have : dl = -2 ∨ dl = -1 ∨ dl = 1 ∨ dl = 2 := by
        simpa [tolerance_deltas] using hdl
      simp only [Prod.fst] at h2
      rcases this with h | h | h | h <;> rw [h] at h2 <;> simp at h2

/-- C9: every key of the exact lookup and every entry of the amount-only
index built by load_csv_lookup carries a nonpositive milliunit amount (a
strictly positive rounded amount is negated before insertion), so a ledger
transaction with a strictly positive milliunit amount can never be matched by
the exact, tolerance, or amount-only path. -/
theorem csv_lookup_amounts_nonpositive (rows : List CsvRow) :
    (∀ e ∈ (load_csv_lookup rows).1, e.1.2 ≤ 0) ∧
    (∀ e ∈ (load_csv_lookup rows).2, e.1 ≤ 0) ∧
    (∀ d amt : ℤ, 0 < amt →
        match_category (load_csv_lookup rows).1 (load_csv_lookup rows).2 d amt = none) := by
  have hinv := load_foldl_nonpos rows ([], []) (by simp) (by simp)
  refine ⟨hinv.1, hinv.2, ?_⟩
  intro d amt hpos
  have hget : ∀ d2 : ℤ, dict_get (load_csv_lookup rows).1 (d2, amt) = none := by
    intro d2
    rcases hg : dict_get (load_csv_lookup rows).1 (d2, amt) with _ | c
    · rfl
    · exfalso
      rcases dict_get_some_mem _ _ _ hg with ⟨p, hp, hpk, _⟩
      have := hinv.1 p hp
      rw [hpk] at this
      simp only [Prod.snd] at this
      omega
  have hba : by_amount_get (load_csv_lookup rows).2 amt = [] := by
    unfold by_amount_get
    rw [List.filter_eq_nil_iff.mpr ?_]
    · rfl
    · intro e he
      have := hinv.2 e he
      simp only [decide_eq_true_eq]
      omega
  have htolstep : tolerance_step (load_csv_lookup rows).1 d amt = none :=
    first_present_map_none _ tolerance_deltas (fun dl _ => hget (d + dl))
  unfold match_category
  rw [hget d, htolstep, hba]
  rfl

/-- C6: when the AI classification call fails at any stage — missing API
key, a raised request, or a body whose fence-stripped decode fails —
categorize_with_ai returns (it is a total function) the mapping that assigns
the sentinel to every index 0..n-1 of the batch. -/
theorem ai_failure_defaults (decode : String → Option (List (Nat × String)))
    (api_key : Option String) (response : Option String) (n : Nat)
    (hfail : api_key = none ∨ response = none ∨
      ∃ t, response = some t ∧ decode t = none) :
    categorize_with_ai decode api_key response n = default_map n ∧
    (∀ i ∈ List.range n,
      (categorize_with_ai decode api_key response n).lookup i = some DEFAULT_CATEGORY) := by
  have hmain : categorize_with_ai decode api_key response n = default_map n := by
    rcases hfail with hk | hr | ⟨t, ht, hd⟩
    · rw [hk]; rfl
    · rcases api_key with _ | k
      · rfl
      · rw [hr]; rfl
    · rcases api_key with _ | k
      · rfl
      · rw [ht]
        simp only [categorize_with_ai, hd]
  refine ⟨hmain, ?_⟩
  intro i hi
  rw [hmain]
  exact lookup_map_const DEFAULT_CATEGORY (List.range n) i hi

/-- C6 witness: a present key, a present response body and a decoder that
rejects it (a non-JSON body) still produce the full sentinel mapping for a
batch of 3 items. -/
theorem ai_failure_defaults_witness :
    categorize_with_ai (fun _ => none) (some "sk-key") (some "not json") 3 = default_map 3 ∧
    (∀ i ∈ List.range 3,
      (categorize_with_ai (fun _ => none) (some "sk-key") (some "not json") 3).lookup i =
        some DEFAULT_CATEGORY) :=
  ai_failure_defaults (fun _ => none) (some "sk-key") (some "not json") 3
    (Or.inr (Or.inr ⟨"not json", rfl, rfl⟩))

/-- C7: deduplication keeps the first occurrence of each (date, amount,
memo-prefix) key and discards every later record with that key (the
cons-filter equation), it is idempotent, and two records identical on the
key collapse to the first one. -/
theorem dedup_first_wins_idempotent :
    (∀ (r : OutRow) (rows : List OutRow),
        dedup (r :: rows) =
          r :: dedup (rows.filter (fun x => !decide (dedup_key x = dedup_key r)))) ∧
    (∀ rows : List OutRow, dedup (dedup rows) = dedup rows) ∧
    (∀ r r2 : OutRow, dedup_key r = dedup_key r2 → dedup [r, r2] = [r]) := by
  refine ⟨?_, ?_, ?_⟩
  · intro r rows
    unfold dedup
    rw [dedup_aux, if_neg (by simp)]
    exact congrArg (r :: ·) (dedup_aux_cons_key rows [] (dedup_key r))
  · intro rows
    exact dedup_aux_idem rows []
  · intro r r2 hk
    unfold dedup
    rw [dedup_aux, if_neg (by simp), dedup_aux, if_pos (by simp [hk])]
    rfl

/-- C8: each pagination iteration either stops (short page; no parsed date;
for the capped variant, the latest date reaching the cutoff) or advances the
since-date cursor to the page's latest date plus one day; when every returned
transaction is dated on or after the requested since-date, the cursor
strictly increases, so no cursor value can repeat. -/
theorem pagination_cursor_advances :
    (∀ dates : List (Option ℤ), dates.length < 500 → page_step dates = PageStep.stop) ∧
    (∀ (dates : List (Option ℤ)) (since n : ℤ),
        (∀ d ∈ dates, ∀ x : ℤ, d = some x → since ≤ x) →
        page_step dates = PageStep.next n → since < n) ∧
    (∀ (cutoff : ℤ) (dates : List (Option ℤ)) (l : ℤ),
        latest_date dates = some l → cutoff ≤ l →
        page_step_cutoff cutoff dates = PageStep.stop) ∧
    (∀ (cutoff : ℤ) (dates : List (Option ℤ)) (since n : ℤ),
        (∀ d ∈ dates, ∀ x : ℤ, d = some x → since ≤ x) →
        page_step_cutoff cutoff dates = PageStep.next n → since < n ∧ n ≤ cutoff) := by
  refine ⟨?_, ?_, ?_, ?_⟩
  · intro dates hlen
    unfold page_step
    rw [if_pos (Or.inl hlen)]
  · intro dates since n hall hstep
    unfold page_step at hstep
    by_cases hcond : dates.length < 500 ∨ dates = []
    · rw [if_pos hcond] at hstep
      exact absurd hstep (by simp)
    · rw [if_neg hcond] at hstep
      rcases hl : latest_date dates with _ | l
      · rw [hl] at hstep
        exact absurd hstep (by simp)
      · rw [hl] at hstep
        have hn : l + 1 = n := by
          have := hstep
          simpa using this
        have hmem : some l ∈ dates ∨ (none : Option ℤ) = some l :=
          latest_foldl_mem dates none l hl
        rcases hmem with hmem | hbad
        · have := hall (some l) hmem l rfl
          omega
        · exact absurd hbad (by simp)
  · intro cutoff dates l hl hcut
    unfold page_step_cutoff
    by_cases hcond : dates.length < 500 ∨ dates = []
    · rw [if_pos hcond]
    · rw [if_neg hcond, hl]
      dsimp only
      rw [if_pos hcut]
  · intro cutoff dates since n hall hstep
    unfold page_step_cutoff at hstep
    by_cases hcond : dates.length < 500 ∨ dates = []
    · rw [if_pos hcond] at hstep
      exact absurd hstep (by simp)
    · rw [if_neg hcond] at hstep
      rcases hl : latest_date dates with _ | l
      · rw [hl] at hstep
        exact absurd hstep (by simp)
      · rw [hl] at hstep
        dsimp only at hstep
        by_cases hc : cutoff ≤ l
        · rw [if_pos hc] at hstep
          exact absurd hstep (by simp)
        · rw [if_neg hc] at hstep
          have hn : l + 1 = n := by
            have := hstep
            simpa using this
          have hmem : some l ∈ dates ∨ (none : Option ℤ) = some l :=
            latest_foldl_mem dates none l hl
          rcases hmem with hmem | hbad
          · have := hall (some l) hmem l rfl
            omega
          · exact absurd hbad (by simp)

/-- Every transaction the importer constructs carries the import id built
from its total amount and date with the constant trailing sequence
component 1, for single and split groups alike. -/
theorem build_group_tx_import_id :
    ∀ (g : List (ℤ × ℤ × Option String)) (t : NewTx),
      build_group_tx g = some t → t.import_id = import_id_string t.amount t.date := by
  intro g t h
  rcases g with _ | ⟨r0, rest⟩
  · exact absurd h (by simp [build_group_tx])
  · simp only [build_group_tx] at h
    by_cases hz : group_total (r0 :: rest) = 0
    · rw [if_pos hz] at h
      exact absurd h (by simp)
    · rw [if_neg hz] at h
      rcases hn : (cat_amounts (r0 :: rest)).length with _ | _ | k
      all_goals rw [hn] at h
      · exact absurd h (by simp)
      · have ht : t = ⟨r0.1, group_total (r0 :: rest),
            import_id_string (group_total (r0 :: rest)) r0.1, false⟩ := by
          have := h
          simpa using this.symm
        rw [ht]
      · have ht : t = ⟨r0.1, group_total (r0 :: rest),
            import_id_string (group_total (r0 :: rest)) r0.1, true⟩ := by
          have := h
          simpa using this.symm
        rw [ht]

/-- C10: any two constructed transaction groups with the same total
milliunit amount and the same date receive character-for-character
identical import ids of the form YNAB:{total}:{date}:1 — the trailing sequence
component is the constant 1 for single and split transactions alike — so the
remote idempotency check cannot tell such groups apart. -/
theorem import_id_ignores_group (g1 g2 : List (ℤ × ℤ × Option String)) (t1 t2 : NewTx)
    (h1 : build_group_tx g1 = some t1) (h2 : build_group_tx g2 = some t2) :
    t1.import_id = import_id_string t1.amount t1.date ∧
    (t1.amount = t2.amount → t1.date = t2.date → t1.import_id = t2.import_id) := by
  refine ⟨build_group_tx_import_id g1 t1 h1, ?_⟩
  intro hamt hdate
  rw [build_group_tx_import_id g1 t1 h1, build_group_tx_import_id g2 t2 h2, hamt, hdate]

/-- C10 witness: a single-category group and a split two-category group with
the same total -1000 milliunits on the same day 5 receive identical import
ids, one being a split transaction and the other not. -/
theorem import_id_ignores_group_witness :
    (NewTx.mk 5 (-1000) "YNAB:-1000:5:1" false).import_id =
      import_id_string (NewTx.mk 5 (-1000) "YNAB:-1000:5:1" false).amount
        (NewTx.mk 5 (-1000) "YNAB:-1000:5:1" false).date ∧
    ((NewTx.mk 5 (-1000) "YNAB:-1000:5:1" false).amount =
        (NewTx.mk 5 (-1000) "YNAB:-1000:5:1" true).amount →
      (NewTx.mk 5 (-1000) "YNAB:-1000:5:1" false).date =
        (NewTx.mk 5 (-1000) "YNAB:-1000:5:1" true).date →
      (NewTx.mk 5 (-1000) "YNAB:-1000:5:1" false).import_id =
        (NewTx.mk 5 (-1000) "YNAB:-1000:5:1" true).import_id) :=
  import_id_ignores_group [(5, -1000, some "catA")]
    [(5, -400, some "catA"), (5, -600, some "catB")]
    (NewTx.mk 5 (-1000) "YNAB:-1000:5:1" false)
    (NewTx.mk 5 (-1000) "YNAB:-1000:5:1" true)
    (by decide) (by decide)

end YnabAuto
